import Mathlib

/-!
Verification of the Overlord ghost agent (`src/py/ghost.py`) against its
natural-language specification.  Each Python function relevant to the
claims is shallowly embedded as an executable Lean definition; theorems
about those definitions settle the claims.

Conventions:
* byte strings are `List Nat` (byte values) or `List Char` where the code
  operates on decoded text;
* Python exceptions are explicit constructors of small inductive types;
* OS effects (socket reads, `open`, `ioctl`) are recorded in result
  structures or supplied as oracle parameters.
-/

namespace Overlord

/-! ## TLS probe (`Ghost.TLSEnabled`, ghost.py lines 282-302)

The Python body is a `try` whose `except` clauses are checked in order:
`ssl.SSLError` → `return False`, `socket.timeout` → `return False`,
`socket.error` → `raise`, `Exception` → `return False`.  We embed the
distinct outcomes of the connection attempt as an inductive and replay
the clause order. -/

/-- Possible outcomes of the wrapped-socket connect inside `TLSEnabled`. -/
inductive ConnectOutcome
  | handshakeOK      -- connect + TLS handshake succeeded
  | sslError         -- ssl.SSLError (handshake failure / plain-TCP peer)
  | timeoutErr       -- socket.timeout (connect timed out)
  | connRefused      -- ConnectionRefusedError, a socket.error
  | otherSocketError -- any other socket.error
  | otherError       -- any non-socket exception
  deriving DecidableEq, Repr

/-- Result of `TLSEnabled`: either a boolean return or a propagated
exception. -/
inductive TLSProbeResult
  | ok (b : Bool)
  | raised
  deriving DecidableEq, Repr

/-- `Ghost.TLSEnabled`: the `except` chain, in source order.  Note that
`except socket.timeout: return False` precedes `except socket.error:
raise`, so a connect timeout returns `False` rather than propagating. -/
def TLSEnabled : ConnectOutcome → TLSProbeResult
  | .handshakeOK => .ok true
  | .sslError => .ok false
  | .timeoutErr => .ok false
  | .connRefused => .raised
  | .otherSocketError => .raised
  | .otherError => .ok false

/-! ## Shell stdin sentinel (`Ghost.SpawnShellServer`, ghost.py 746-756)

`_STDIN_CLOSED` is the Python `str` `'##STDIN_CLOSED##'` (line 63), while
the data received from the socket is `bytes`.  We model the two Python
types and `bytes.index`, which raises `TypeError` when handed a `str`
needle and `ValueError` when the needle is absent. -/

/-- A Python value that can be handed to `bytes.index`. -/
inductive PyVal
  | str (s : String)
  | bytes (b : List Nat)
  deriving DecidableEq, Repr

/-- The Python exceptions relevant here. -/
inductive PyExn
  | typeError
  | valueError
  deriving DecidableEq, Repr

/-- Python `*` on a `str`/`bytes` value with a natural repetition count. -/
def pyMul : PyVal → Nat → PyVal
  | .str s, n => .str (String.join (List.replicate n s))
  | .bytes b, n => .bytes (List.flatten (List.replicate n b))

/-- First index at which `needle` occurs as a sublist of `hay`. -/
def findSubIdx (hay needle : List Nat) : Option Nat :=
  match hay with
  | [] => if needle = [] then some 0 else none
  | _ :: tl =>
    if needle.isPrefixOf hay then some 0
    else (findSubIdx tl needle).map (· + 1)

/-- Python `bytes.index`: `TypeError` on a `str` needle, `ValueError`
when the needle does not occur. -/
def bytesIndex (hay : List Nat) (needle : PyVal) : Except PyExn Nat :=
  match needle with
  | .str _ => .error .typeError
  | .bytes nd =>
    match findSubIdx hay nd with
    | some i => .ok i
    | none => .error .valueError

/-- `_STDIN_CLOSED = '##STDIN_CLOSED##'` (ghost.py line 63): a `str`. -/
def STDIN_CLOSED : PyVal := .str "##STDIN_CLOSED##"

/-- Outcome of one socket read inside `SpawnShellServer`'s loop. -/
inductive ShellStdinResult
  | wrote (toStdin : List Nat) (stdinClosed : Bool)
  | uncaught (e : PyExn)   -- exception escapes the `except ValueError`
  deriving DecidableEq, Repr

/-- The socket branch of `SpawnShellServer`'s loop (ghost.py 746-756):
```
try:
  idx = ret.index(_STDIN_CLOSED * 2)
  p.stdin.write(ret[:idx])
  p.stdin.close()
except ValueError:
  p.stdin.write(ret)
```
Only `ValueError` is caught; any other exception propagates to the outer
handler, which tears the session down. -/
def shellHandleStdin (ret : List Nat) : ShellStdinResult :=
  match bytesIndex ret (pyMul STDIN_CLOSED 2) with
  | .ok idx => .wrote (ret.take idx) true
  | .error .valueError => .wrote ret false
  | .error e => .uncaught e

/-! ## Machine id (`Ghost.GetMachineID` ghost.py 493-547, `__init__`
ghost.py 241-247, `Register` ghost.py 1269-1275) -/

/-- `Ghost.RANDOM_MID = '##random_mid##'`. -/
def RANDOM_MID : String := "##random_mid##"

/-- The machine-dependent id sources `GetMachineID` consults, plus the
fresh UUID it would mint as a last resort. -/
structure MachineIdSources where
  platform : String
  darwinSerial : Option String
  factoryDeviceId : Option String
  dmiProductUuid : Option String
  macAddresses : List String
  freshUuid : String

/-- `Ghost.GetMachineID`: `if self._mid: return self._mid` (Python
truthiness: any non-`None`, non-empty string), then the platform serial
(Darwin), the factory device id, the DMI product UUID, the sorted MAC
addresses joined with `;`, and finally a fresh UUID. -/
def GetMachineID (mid : Option String) (src : MachineIdSources) : String :=
  match mid with
  | some m =>
    if m ≠ "" then m else GetMachineIDFallback src
  | none => GetMachineIDFallback src
where
  /-- The fallback chain after the `self._mid` check. -/
  GetMachineIDFallback (src : MachineIdSources) : String :=
    match (if src.platform = "Darwin" then src.darwinSerial else none) with
    | some serial => serial
    | none =>
      match src.factoryDeviceId with
      | some devId => devId
      | none =>
        match src.dmiProductUuid with
        | some uuidStr => uuidStr
        | none =>
          if src.macAddresses ≠ [] then
            String.intercalate ";" src.macAddresses
          else src.freshUuid

/-- `Ghost.__init__` (ghost.py 241-247): the machine id computed at
construction.  `mid = RANDOM_MID` yields a fresh UUID; otherwise
`GetMachineID` is used. -/
def initMachineId (mid : Option String) (ctorUuid : String)
    (src : MachineIdSources) : String :=
  if mid = some RANDOM_MID then ctorUuid else GetMachineID mid src

/-- `Ghost.Register` (ghost.py 1269-1275) recomputes the machine id via
`self._machine_id = self.GetMachineID()` immediately before sending the
`register` request; the request's `mid` field carries that value. -/
def registerMid (mid : Option String) (src : MachineIdSources) : String :=
  GetMachineID mid src

/-! ## Request/response registry (`Ghost.SendRequest` ghost.py 581-590,
`Ghost.HandleResponse` ghost.py 1104-1112,
`Ghost.ScanForTimeoutRequests` ghost.py 1143-1156,
`Ghost.Reset` ghost.py 566-575)

`self._requests` maps rid → `[request_time, timeout, handler]`.  We use an
association list (rids are fresh UUIDs, hence unique), record handlers by
their callability, and log every handler invocation in `calls`:
`(rid, true)` for a response delivery, `(rid, false)` for the `None`
timeout delivery. -/

/-- `_REQUEST_TIMEOUT_SECS = 60`, the default `SendRequest` timeout. -/
def REQUEST_TIMEOUT_SECS : Int := 60

/-- One entry of `self._requests`: `[request_time, timeout, handler]`,
keyed by rid.  `hasHandler` records whether `handler` is callable. -/
structure ReqRecord where
  rid : String
  time : Nat
  timeout : Int
  hasHandler : Bool
  deriving DecidableEq, Repr

/-- The registry together with the log of handler invocations. -/
structure ReqState where
  requests : List ReqRecord
  calls : List (String × Bool)
  deriving DecidableEq, Repr

/-- The empty registry. -/
def emptyReqState : ReqState := ⟨[], []⟩

/-- The message sent on the wire by `Ghost.SendRequest`:
`{'rid': rid, 'timeout': timeout, 'name': name, 'payload': args}`. -/
structure OutMsg (π : Type) where
  rid : String
  timeout : Int
  name : String
  payload : π
  deriving Repr

/-- `Ghost.SendRequest` (ghost.py 581-590): build the message; when
`timeout >= 0` record `(Timestamp(), timeout, handler)` under the (fresh)
rid; a negative timeout is fire-and-forget. -/
def SendRequest {π : Type} (st : ReqState) (rid : String) (now : Nat)
    (name : String) (payload : π) (hasHandler : Bool) (timeout : Int) :
    OutMsg π × ReqState :=
  (⟨rid, timeout, name, payload⟩,
   if 0 ≤ timeout then
     { st with requests := st.requests ++ [⟨rid, now, timeout, hasHandler⟩] }
   else st)

/-- `Ghost.HandleResponse` (ghost.py 1104-1112): if the rid is pending,
delete it and invoke the stored handler (when callable) with the
response; otherwise ignore. -/
def HandleResponse (st : ReqState) (rid : String) : ReqState :=
  match st.requests.find? (fun r => r.rid = rid) with
  | some r =>
    { requests := st.requests.eraseP (fun r => r.rid = rid),
      calls := st.calls ++ if r.hasHandler then [(rid, true)] else [] }
  | none => st

/-- The timeout predicate of `ScanForTimeoutRequests`:
`Timestamp() - request_time > timeout`. -/
def timedOut (now : Nat) (r : ReqRecord) : Bool :=
  decide ((now : Int) - (r.time : Int) > r.timeout)

/-- `Ghost.ScanForTimeoutRequests` (ghost.py 1143-1156): every entry past
its deadline is removed and its handler (when callable) invoked with
`None`. -/
def ScanForTimeoutRequests (st : ReqState) (now : Nat) : ReqState :=
  { requests := st.requests.filter (fun r => ¬ timedOut now r),
    calls := st.calls ++ (st.requests.filter (timedOut now)).filterMap
      (fun r => if r.hasHandler then some (r.rid, false) else none) }

/-- `Ghost.Reset` (ghost.py 566-575): `self._requests = {}` — pending
entries are dropped without invoking their handlers. -/
def ResetRequests (st : ReqState) : ReqState := { st with requests := [] }

/-- Events the control loop (`Ghost.Listen`) feeds to the registry. -/
inductive AgentEv
  | response (rid : String)
  | scan (now : Nat)
  | reset
  deriving DecidableEq, Repr

/-- One control-loop event applied to the registry. -/
def reqStep (st : ReqState) : AgentEv → ReqState
  | .response rid => HandleResponse st rid
  | .scan now => ScanForTimeoutRequests st now
  | .reset => ResetRequests st

/-- A whole event trace applied to the registry. -/
def reqRun (st : ReqState) (evs : List AgentEv) : ReqState :=
  evs.foldl reqStep st

/-- How many times the handler stored under `rid` has been invoked. -/
def callCount (st : ReqState) (rid : String) : Nat :=
  (st.calls.filter (fun c => c.1 = rid)).length

/-! ## FILE/download initiation (`Ghost.InitiateFileOperation`,
ghost.py 784-795) -/

/-- `os.path.basename` (POSIX): the part after the last `/`. -/
def basename (p : String) : String := (p.splitOn "/").getLastD ""

/-- The payload of `request_to_download`:
`{'terminal_sid': …, 'filename': …, 'size': …}`. -/
structure DownloadReqPayload where
  terminal_sid : Option String
  filename : String
  size : Nat
  deriving DecidableEq, Repr

/-- `Ghost.InitiateFileOperation`, download branch (ghost.py 784-795):
`self.SendRequest('request_to_download', {'terminal_sid': …, 'filename':
os.path.basename(...), 'size': size})` — no handler argument and no
timeout argument, so the defaults `handler=None` and
`timeout=_REQUEST_TIMEOUT_SECS` apply. -/
def InitiateFileOperationDownload (st : ReqState) (terminalSid : Option String)
    (filepath : String) (size : Nat) (rid : String) (now : Nat) :
    OutMsg DownloadReqPayload × ReqState :=
  SendRequest st rid now "request_to_download"
    ⟨terminalSid, basename filepath, size⟩ false REQUEST_TIMEOUT_SECS

/-! ## Framed-JSON parsing before registration (`Ghost.ParseMessage`,
ghost.py 1114-1126; `BufferedSocket.UnRecv`, ghost.py 104-105)

In `single` mode (`Listen` passes `single = (self._register_status !=
SUCCESS)`), only the first `\r\n`-terminated chunk is parsed and
everything after it is pushed back with `UnRecv`. -/

/-- `_SEPARATOR = b'\r\n'`. -/
def SEPARATOR : List Nat := [13, 10]

/-- `bytes.index(b'\r\n')`: index of the first CR LF, `none` when absent
(the `ValueError` branch). -/
def findSep : List Nat → Option Nat
  | [] => none
  | [_] => none
  | a :: b :: tl =>
    if a = 13 ∧ b = 10 then some 0
    else (findSep (b :: tl)).map (· + 1)

/-- `BufferedSocket.UnRecv` (ghost.py 104-105): `self._buf = buf +
self._buf`. -/
def UnRecv (headBuf incoming : List Nat) : List Nat := incoming ++ headBuf

/-- `Ghost.ParseMessage` with `single=True` (ghost.py 1114-1126): locate
the first separator; on `ValueError` push the whole buffer back and parse
nothing; otherwise parse exactly `buf[:index]` and push back
`buf[index+2:]`.  Returns the parsed chunks and the new head buffer. -/
def ParseMessageSingle (buf headBuf : List Nat) :
    List (List Nat) × List Nat :=
  match findSep buf with
  | none => ([], UnRecv headBuf buf)
  | some i => ([buf.take i], UnRecv headBuf (buf.drop (i + 2)))

/-! ## Port-forward bridge (`Ghost.SpawnPortForwardServer`,
ghost.py 854-888)

The loop multiplexes the operator socket (`self._sock`) and the target
socket (`src_sock`).  An empty read models EOF: on the operator side it
raises `RuntimeError` and the loop exits (the `finally` closes both
sockets); on the target side the code executes `continue` and the loop
keeps running. -/

/-- One `select`-ready read in the forward loop: the bytes returned by
`Recv`/`recv` ( `[]` = EOF). -/
inductive FwdEv
  | fromOp (d : List Nat)
  | fromTgt (d : List Nat)
  deriving DecidableEq, Repr

/-- The observable state of the forward bridge. -/
structure FwdState where
  sentToTarget : List Nat
  sentToOp : List Nat
  running : Bool
  deriving DecidableEq, Repr

/-- One iteration of `SpawnPortForwardServer`'s loop on a ready socket. -/
def fwdStep (st : FwdState) (e : FwdEv) : FwdState :=
  if st.running = false then st
  else
    match e with
    | .fromOp d =>
      if d.isEmpty then { st with running := false }  -- raise RuntimeError
      else { st with sentToTarget := st.sentToTarget ++ d }
    | .fromTgt d =>
      if d.isEmpty then st                            -- continue
      else { st with sentToOp := st.sentToOp ++ d }

/-- `SpawnPortForwardServer` (ghost.py 854-888): first
`src_sock.send(self._sock.RecvBuf())` — the Buffered-socket's head goes
to the target — then the bridge loop over the event sequence. -/
def SpawnPortForward (headBuf : List Nat) (evs : List FwdEv) : FwdState :=
  evs.foldl fwdStep ⟨headBuf, [], true⟩

/-! ## file_upload validation (`Ghost.HandleFileUploadRequest`,
ghost.py 1019-1035 resolution and validation; `Ghost.StartUploadServer`,
ghost.py 820-852 does the actual transfer in a spawned child)

`os.makedirs`/`open` success and `os.path.isdir`/working-directory
lookups are OS effects; they enter as oracle parameters (`isDir`,
`sidCwd`, `openOk`).  The filesystem content is an association list
path → bytes; `open(dest_path, 'wb')` truncates. -/

/-- POSIX `os.path.isabs`. -/
def isAbs (p : String) : Bool := p.startsWith "/"

/-- POSIX `os.path.join` for two components. -/
def pathJoin (a b : String) : String :=
  if isAbs b then b
  else if a.endsWith "/" || a = "" then a ++ b
  else a ++ "/" ++ b

/-- The fields of a `file_upload` payload used by the handler.  `dest` is
`payload.get('dest', '')`. -/
structure UploadPayload where
  filename : String
  dest : String
  terminalSid : Option String
  checkOnly : Bool
  deriving DecidableEq, Repr

/-- Destination resolution of `HandleFileUploadRequest` (ghost.py
1019-1035): an explicit `dest` (made absolute against `$HOME`, descended
into when it is a directory) wins; otherwise the working directory of the
terminal session's shell (when resolvable), else `$HOME`, joined with the
bare filename. -/
def resolveUploadDest (home : String) (isDir : String → Bool)
    (sidCwd : String → Option String) (pl : UploadPayload) : String :=
  if pl.dest ≠ "" then
    let d := if isAbs pl.dest then pl.dest else pathJoin home pl.dest
    if isDir d then pathJoin d pl.filename else d
  else
    let targetDir :=
      match pl.terminalSid with
      | some sid => (sidCwd sid).getD home
      | none => home
    pathJoin targetDir pl.filename

/-- Contents of `path` in the modelled filesystem. -/
def fileContents (fs : List (String × List Nat)) (p : String) :
    Option (List Nat) :=
  (fs.find? (fun e => e.1 = p)).map (fun e => e.2)

/-- Write `content` at `p`, replacing any previous contents. -/
def setFile (fs : List (String × List Nat)) (p : String)
    (content : List Nat) : List (String × List Nat) :=
  (p, content) :: fs.filter (fun e => e.1 ≠ p)

/-- Result of `HandleFileUploadRequest`: filesystem after validation,
whether `SendResponse(msg, SUCCESS)` was sent, whether a FILE-mode child
was spawned. -/
structure UploadOutcome where
  fs : List (String × List Nat)
  dest : String
  success : Bool
  spawned : Bool
  deriving DecidableEq, Repr

/-- `Ghost.HandleFileUploadRequest` validation (ghost.py 1019-1035):
resolve the destination, best-effort `os.makedirs`, then
`with open(dest_path, 'wb'): pass` — which truncates any existing file —
before replying; on open failure send an error response and stop.  A
FILE-mode child is spawned only when `check_only` is false, and no upload
bytes flow in this handler. -/
def HandleFileUploadRequest (home : String) (isDir : String → Bool)
    (sidCwd : String → Option String) (openOk : String → Bool)
    (fs : List (String × List Nat)) (pl : UploadPayload) : UploadOutcome :=
  let dest := resolveUploadDest home isDir sidCwd pl
  if openOk dest then
    { fs := setFile fs dest [], dest := dest, success := true,
      spawned := !pl.checkOnly }
  else
    { fs := fs, dest := dest, success := false, spawned := false }

/-! ## TERMINAL escape scanner (`Ghost.HandleTTYControl` ghost.py
600-633, `_ProcessBuffer` inside `Ghost.SpawnTTYServer` ghost.py 673-699)

`_ESCAPE_SEQ_RE = re.compile(r'\x1b\[([0-9;?]*)([A-Za-z])')`.  Buffers
are the decoded character sequences.  The two parameter classes are
disjoint, so the regex match at a position is deterministic: after
`ESC [`, the maximal run of `[0-9;?]` must be followed by one letter. -/

/-- The character class `[0-9;?]` of the escape regex. -/
def isParamChar (c : Char) : Bool := c.isDigit || c == ';' || c == '?'

/-- Match `_ESCAPE_SEQ_RE` anchored at the head: returns `(args, cmd)`
(groups 1 and 2); `group(0)` has length `args.length + 3`. -/
def matchEscAt : List Char → Option (List Char × Char)
  | a :: b :: rest =>
    if a = '\x1b' ∧ b = '[' then
      let args := rest.takeWhile isParamChar
      match rest.dropWhile isParamChar with
      | c :: _ => if c.isAlpha then some (args, c) else none
      | [] => none
    else none
  | _ => none

/-- `re.search`: the match at the earliest possible start position.
Returns `(start, args, cmd)`. -/
def escSearch : List Char → Option (Nat × List Char × Char)
  | [] => none
  | c :: tl =>
    match matchEscAt (c :: tl) with
    | some (args, cmd) => some (0, args, cmd)
    | none => (escSearch tl).map (fun r => (r.1 + 1, r.2))

/-- Observable effects of the scanner: characters written to the pty and
the `TIOCSWINSZ` ioctl invocations `(rows, cols)`. -/
structure TTYOut where
  written : List Char
  ioctls : List (Nat × Nat)
  deriving DecidableEq, Repr

/-- Sequential composition of scanner effects. -/
def TTYOut.append (a b : TTYOut) : TTYOut :=
  ⟨a.written ++ b.written, a.ioctls ++ b.ioctls⟩

/-- Python `str.split(';')` on the regex's group 1 (characters from
`[0-9;?]`): split on every `;`, keeping empty pieces. -/
def splitOnSemi : List Char → List (List Char)
  | [] => [[]]
  | c :: tl =>
    if c = ';' then [] :: splitOnSemi tl
    else
      match splitOnSemi tl with
      | h :: t => (c :: h) :: t
      | [] => [[c]]

/-- Python `int()` on a piece of group 1 (alphabet `[0-9?]`): the decimal
value of a non-empty all-digit string, `ValueError` (`none`) otherwise. -/
def charsToNat? (l : List Char) : Option Nat :=
  if l ≠ [] ∧ l.all (fun c => c.isDigit) then
    some (l.foldl (fun n c => n * 10 + (c.toNat - 48)) 0)
  else none

/-- `Ghost.HandleTTYControl` (ghost.py 600-633).  No regex match: write
the first two bytes to the pty and consume 2.  A match for command `t`
with at least three `;`-separated parameters, the first being `8` and the
next two parsing as ints that fit `struct.pack('HHHH', …)`: invoke the
ioctl with `(rows, cols)`, write nothing, consume `len(match.group(0))`.
Any other match (or an exception from `int`/`struct.pack`, caught by the
`except` and falling through): write `match.group(0)` and consume its
length.  Returns `(consumed, effects)`; note that `consumed` counts from
the start of the handed buffer even when the match starts later. -/
def HandleTTYControl (buffer : List Char) : Nat × TTYOut :=
  match escSearch buffer with
  | none => (2, ⟨buffer.take 2, []⟩)
  | some (pos, args, cmd) =>
    let mlen := args.length + 3
    let group0 := (buffer.drop pos).take mlen
    (mlen,
     if cmd = 't' then
       let params := splitOnSemi args
       if params.length ≥ 3 ∧ params[0]? = some ['8'] then
         match charsToNat? (params[1]?.getD []),
               charsToNat? (params[2]?.getD []) with
         | some rows, some cols =>
           if rows < 65536 ∧ cols < 65536 then ⟨[], [(rows, cols)]⟩
           else ⟨group0, []⟩   -- struct.error caught, falls through to write
         | _, _ => ⟨group0, []⟩ -- int() raised ValueError, caught
       else ⟨group0, []⟩
     else ⟨group0, []⟩)

/-- `buf.find(b'\x1b[')`: index of the first `ESC [`, `none` for -1. -/
def findEscBracket : List Char → Option Nat
  | [] => none
  | [_] => none
  | a :: b :: tl =>
    if a = '\x1b' ∧ b = '[' then some 0
    else (findEscBracket (b :: tl)).map (· + 1)

/-- `_ProcessBuffer` (ghost.py 673-686): repeatedly find `ESC [`, write
the bytes before it, let `HandleTTYControl` handle the tail, and drop
`pos + consumed` bytes; when no `ESC [` remains, write the rest. -/
def ProcessBuffer (buf : List Char) : TTYOut :=
  match h : findEscBracket buf with
  | none => ⟨buf, []⟩
  | some pos =>
    let r := HandleTTYControl (buf.drop pos)
    TTYOut.append ⟨buf.take pos, []⟩
      (TTYOut.append r.2 (ProcessBuffer (buf.drop (pos + r.1))))
termination_by buf.length
decreasing_by
  have hb : buf ≠ [] := by
    intro hnil
    rw [hnil] at h
    simp [findEscBracket] at h
  have hc : 1 ≤ (HandleTTYControl (buf.drop pos)).1 := by
    rcases hes : escSearch (buf.drop pos) with _ | ⟨p, args, cmd⟩
    · simp [HandleTTYControl, hes]
    · simp [HandleTTYControl, hes]
  have hlen : 0 < buf.length := by
    cases buf
    · exact absurd rfl hb
    · simp
  simp only [List.length_drop]
  omega

/-- Buffers the scanner passes through unchanged: any mix of ordinary
(non-escape) bytes and complete CSI escape sequences whose final letter
is not `t` — "other CSI sequences" in the spec's words.  (A command
letter `t` could itself be a resize request, so it is excluded from the
surroundings of the escape under study.) -/
inductive PassThru : List Char → Prop
  | nil : PassThru []
  | plain {c : Char} {rest : List Char} :
      c ≠ '\x1b' → PassThru rest → PassThru (c :: rest)
  | csi {args : List Char} {cmd : Char} {rest : List Char} :
      (∀ a ∈ args, isParamChar a = true) → cmd.isAlpha = true →
      isParamChar cmd = false → cmd ≠ 't' → PassThru rest →
      PassThru ('\x1b' :: '[' :: (args ++ cmd :: rest))

/-! # Theorems -/

/-! ## C7: TLS probe -/

/-- C7 counterexample: the claim says a connect-timeout condition is
propagated to the caller as an error, but `TLSEnabled` returns the
boolean `False` for it — the `except socket.timeout` clause precedes the
re-raising `except socket.error` clause. -/
theorem TLSEnabled_timeout_counterexample :
    TLSEnabled ConnectOutcome.timeoutErr = TLSProbeResult.ok false ∧
    TLSEnabled ConnectOutcome.timeoutErr ≠ TLSProbeResult.raised := by
  constructor
  · rfl
  · intro h
    exact absurd h (by decide)

/-- C7 amended: `TLSEnabled` returns true iff the TLS handshake
succeeds; it returns false on a handshake error, a plain-TCP peer, a
connect timeout, or any non-socket exception; it propagates
connection-refused and other (non-timeout) socket errors. -/
theorem TLSEnabled_characterization :
    ∀ o : ConnectOutcome,
      (TLSEnabled o = TLSProbeResult.ok true ↔ o = ConnectOutcome.handshakeOK) ∧
      (TLSEnabled o = TLSProbeResult.raised ↔
        (o = ConnectOutcome.connRefused ∨ o = ConnectOutcome.otherSocketError)) := by
  intro o
  cases o <;> simp [TLSEnabled]

/-! ## C2: shell stdin-close sentinel -/

/-- C2 (code bug): in `SpawnShellServer`, `ret.index(_STDIN_CLOSED * 2)`
hands a `str` needle to `bytes.index`, which raises `TypeError` for
*every* received buffer — sentinel or not.  The handler catches only
`ValueError`, so the exception escapes to the outer handler and the
session is torn down; the buffer is never written to the child's stdin
and the sentinel never splits it. -/
theorem shellHandleStdin_always_typeError :
    ∀ ret : List Nat, shellHandleStdin ret = ShellStdinResult.uncaught PyExn.typeError := by
  intro ret
  rfl

/-! ## C3: random machine id -/

/-- C3 (code bug): with `mid = RANDOM_MID` the constructor does mint a
random UUID, but `Register` recomputes the machine id via
`GetMachineID`, whose `if self._mid: return self._mid` check returns the
(truthy) sentinel string itself — so every `register` request carries the
literal `'##random_mid##'`, not a random UUID. -/
theorem registerMid_random_is_sentinel :
    ∀ (src : MachineIdSources) (ctorUuid : String),
      initMachineId (some RANDOM_MID) ctorUuid src = ctorUuid ∧
      registerMid (some RANDOM_MID) src = RANDOM_MID := by
  intro src ctorUuid
  constructor
  · simp [initMachineId]
  · simp [registerMid, GetMachineID, RANDOM_MID]

/-! ## C9: request_to_download timeout -/

/-- C9 counterexample: the claim says `request_to_download` is sent with
a negative (infinite) timeout and never enters the pending-request
index; in the code `SendRequest` is called without a timeout argument,
so the default of 60 seconds applies and the rid *is* indexed. -/
theorem initiateDownload_counterexample :
    (InitiateFileOperationDownload emptyReqState (some "S") "/tmp/file.bin"
      1024 "rid1" 5).1.timeout = 60 ∧
    ¬ (InitiateFileOperationDownload emptyReqState (some "S") "/tmp/file.bin"
      1024 "rid1" 5).1.timeout < 0 ∧
    (InitiateFileOperationDownload emptyReqState (some "S") "/tmp/file.bin"
      1024 "rid1" 5).2.requests =
      [⟨"rid1", 5, 60, false⟩] := by
  refine ⟨rfl, by decide, rfl⟩

/-- C9 amended: the download branch of `InitiateFileOperation` sends,
before any bytes are streamed, a `request_to_download` request whose
payload carries the terminal sid, the file's basename and its size — but
with the default timeout of 60 seconds and no handler, so the request is
added to the pending-request index (where expiry merely logs). -/
theorem initiateDownload_spec :
    ∀ (st : ReqState) (sid : Option String) (path : String) (size : Nat)
      (rid : String) (now : Nat),
      InitiateFileOperationDownload st sid path size rid now =
        (⟨rid, REQUEST_TIMEOUT_SECS, "request_to_download",
           ⟨sid, basename path, size⟩⟩,
         { st with requests := st.requests ++ [⟨rid, now, REQUEST_TIMEOUT_SECS, false⟩] }) := by
  intro st sid path size rid now
  simp [InitiateFileOperationDownload, SendRequest, REQUEST_TIMEOUT_SECS]

/-! ## C10: file_upload truncation during validation -/

/-- C10: for every `file_upload` request whose destination opens, the
validation `open(dest_path, 'wb')` truncates any existing file at the
resolved destination to zero bytes before the reply, the reply is
SUCCESS, and the upload child is spawned exactly when `check_only` is
false — all before any upload bytes exist (`HandleFileUploadRequest`
never receives data). -/
theorem handleFileUpload_truncates :
    ∀ (home : String) (isDir : String → Bool) (sidCwd : String → Option String)
      (openOk : String → Bool) (fs : List (String × List Nat))
      (pl : UploadPayload),
      openOk (resolveUploadDest home isDir sidCwd pl) = true →
      fileContents (HandleFileUploadRequest home isDir sidCwd openOk fs pl).fs
          (HandleFileUploadRequest home isDir sidCwd openOk fs pl).dest = some [] ∧
      (HandleFileUploadRequest home isDir sidCwd openOk fs pl).success = true ∧
      (HandleFileUploadRequest home isDir sidCwd openOk fs pl).spawned = !pl.checkOnly := by
  intro home isDir sidCwd openOk fs pl hOpen
  simp [HandleFileUploadRequest, hOpen, fileContents, setFile]

/-- C10 witness: a pre-existing file `/tmp/f` holding bytes `[1,2,3]` is
emptied by a non-check-only upload validation that never transfers
data. -/
theorem handleFileUpload_truncates_witness :
    fileContents (HandleFileUploadRequest "/home/u" (fun _ => false)
        (fun _ => none) (fun _ => true) [("/tmp/f", [1, 2, 3])]
        ⟨"f", "/tmp/f", none, false⟩).fs
      (HandleFileUploadRequest "/home/u" (fun _ => false) (fun _ => none)
        (fun _ => true) [("/tmp/f", [1, 2, 3])] ⟨"f", "/tmp/f", none, false⟩).dest
      = some [] ∧
    (HandleFileUploadRequest "/home/u" (fun _ => false) (fun _ => none)
      (fun _ => true) [("/tmp/f", [1, 2, 3])] ⟨"f", "/tmp/f", none, false⟩).spawned = true :=
  ⟨(handleFileUpload_truncates "/home/u" (fun _ => false) (fun _ => none)
      (fun _ => true) [("/tmp/f", [1, 2, 3])] ⟨"f", "/tmp/f", none, false⟩ rfl).1,
   (handleFileUpload_truncates "/home/u" (fun _ => false) (fun _ => none)
      (fun _ => true) [("/tmp/f", [1, 2, 3])] ⟨"f", "/tmp/f", none, false⟩ rfl).2.2⟩

/-! ## C8: port-forward bridge termination -/

/-- C8 counterexample: end-of-stream from the local target does not end
the bridge — `if not data: continue` keeps the loop running — while the
claim says the loop terminates as soon as *either* side reaches EOF. -/
theorem spawnPortForward_tgtEOF_counterexample :
    (SpawnPortForward [1] [FwdEv.fromTgt []]).running = true ∧
    (SpawnPortForward [1] [FwdEv.fromTgt []]).sentToTarget = [1] := by
  exact ⟨rfl, rfl⟩

/-- C8 amended: the FORWARD session first sends the Buffered-socket's
head to the target (the head is a prefix of everything ever sent there),
and the bridge loop terminates exactly when the *operator* socket
reaches end-of-stream; target EOF is ignored and the loop continues.
(Both sockets are closed by the `finally` once the loop exits.) -/
theorem spawnPortForward_spec :
    ∀ (headBuf : List Nat) (evs : List FwdEv),
      headBuf <+: (SpawnPortForward headBuf evs).sentToTarget ∧
      ((SpawnPortForward headBuf evs).running = false ↔ FwdEv.fromOp [] ∈ evs) := by
  intro headBuf evs
  constructor
  · have general : ∀ (evs : List FwdEv) (st : FwdState),
        st.sentToTarget <+: (evs.foldl fwdStep st).sentToTarget := by
      intro evs
      induction evs with
      | nil => intro st; exact List.prefix_refl _
      | cons e tl ih =>
        intro st
        refine List.IsPrefix.trans ?_ (ih (fwdStep st e))
        unfold fwdStep
        rcases e with d | d <;> cases hr : st.running <;>
          simp [hr] <;> rcases d with _ | ⟨x, xs⟩ <;>
          simp [List.prefix_append]
    exact general evs ⟨headBuf, [], true⟩
  · have general : ∀ (evs : List FwdEv) (st : FwdState),
        ((evs.foldl fwdStep st).running = false ↔
          st.running = false ∨ FwdEv.fromOp [] ∈ evs) := by
      intro evs
      induction evs with
      | nil => intro st; simp
      | cons e tl ih =>
        intro st
        have hstep : (fwdStep st e).running = false ↔
            st.running = false ∨ e = FwdEv.fromOp [] := by
          unfold fwdStep
          rcases e with d | d <;> cases hr : st.running <;>
            simp [hr] <;> rcases d with _ | ⟨x, xs⟩ <;> simp [hr]
        rw [List.foldl_cons, ih (fwdStep st e), hstep, List.mem_cons]
        constructor
        · rintro (⟨h | h⟩ | h)
          · exact Or.inl h
          · exact Or.inr (Or.inl h.symm)
          · exact Or.inr (Or.inr h)
        · rintro (h | h | h)
          · exact Or.inl (Or.inl h)
          · exact Or.inl (Or.inr h.symm)
          · exact Or.inr h
    have hg := general evs ⟨headBuf, [], true⟩
    simp only [SpawnPortForward]
    rw [hg]
    simp

/-! ## C6: single-message parsing before registration -/

/-- `findSep` finds the *first* CR LF: a separator sits at the reported
index and at no earlier index. -/
theorem findSep_first :
    ∀ (buf : List Nat) (i : Nat), findSep buf = some i →
      (buf.drop i).take 2 = SEPARATOR ∧
      ∀ j, j < i → (buf.drop j).take 2 ≠ SEPARATOR := by
  intro buf
  induction buf using findSep.induct with
  | case1 =>
    intro i h
    simp [findSep] at h
  | case2 a =>
    intro i h
    simp [findSep] at h
  | case3 a b tl hcond =>
    intro i h
    rw [findSep] at h
    rw [if_pos hcond] at h
    obtain ⟨ha, hb⟩ := hcond
    cases h
    subst ha hb
    exact ⟨rfl, by omega⟩
  | case4 a b tl hcond ih =>
    intro i h
    rw [findSep] at h
    rw [if_neg hcond] at h
    rcases hrec : findSep (b :: tl) with _ | i'
    · rw [hrec] at h; simp at h
    · rw [hrec] at h
      simp only [Option.map_some'] at h
      obtain ⟨hfirst, hnone⟩ := ih i' hrec
      cases h
      constructor
      · exact hfirst
      · intro j hj
        cases j with
        | zero =>
          simp only [List.drop_zero]
          intro hcontra
          have : a = 13 ∧ b = 10 := by
            have h2 : (a :: b :: tl).take 2 = [a, b] := rfl
            rw [h2] at hcontra
            simp [SEPARATOR] at hcontra
            exact hcontra
          exact hcond this
        | succ j' =>
          have : ((a :: b :: tl).drop (j' + 1)) = (b :: tl).drop j' := rfl
          rw [this]
          exact hnone j' (by omega)

/-- C6: while registration has not succeeded, `ParseMessage` handles at
most one CRLF-terminated chunk per received buffer.  With no separator,
nothing is parsed and the whole buffer is pushed back in front of the
Buffered-socket's head buffer; with a first separator at `i`, exactly
`buf[:i]` is parsed — so precisely `buf[:i+2]` is consumed — and
`buf[i+2:]` is pushed back. -/
theorem parseMessageSingle_spec :
    ∀ (buf headBuf : List Nat),
      (ParseMessageSingle buf headBuf).1.length ≤ 1 ∧
      (findSep buf = none →
        ParseMessageSingle buf headBuf = ([], buf ++ headBuf)) ∧
      (∀ i, findSep buf = some i →
        ParseMessageSingle buf headBuf =
          ([buf.take i], buf.drop (i + 2) ++ headBuf) ∧
        buf.take i ++ SEPARATOR ++ buf.drop (i + 2) = buf ∧
        ∀ j, j < i → (buf.drop j).take 2 ≠ SEPARATOR) := by
  intro buf headBuf
  refine ⟨?_, ?_, ?_⟩
  · unfold ParseMessageSingle
    rcases h : findSep buf with _ | i <;> simp
  · intro h
    unfold ParseMessageSingle
    rw [h]
    rfl
  · intro i h
    obtain ⟨hsep, hfirst⟩ := findSep_first buf i h
    refine ⟨?_, ?_, hfirst⟩
    · unfold ParseMessageSingle
      rw [h]
      rfl
    · conv_rhs => rw [← List.take_append_drop i buf]
      have hdd : buf.drop (i + 2) = (buf.drop i).drop 2 := by
        rw [List.drop_drop]
      rw [hdd, List.append_assoc, ← hsep, List.take_append_drop]

/-- C6 witness: the buffer `b'{}\r\ncd'` with head buffer `[7]`: exactly
one chunk `b'{}'` is parsed and `b'cd'` is pushed back in front of the
head buffer. -/
theorem parseMessageSingle_witness :
    ParseMessageSingle [123, 125, 13, 10, 99, 100] [7] =
      ([[123, 125]], [99, 100, 7]) :=
  ((parseMessageSingle_spec [123, 125, 13, 10, 99, 100] [7]).2.2 2 (by decide)).1

/-! ## C1: exactly-once handler delivery -/

/-- If filtering leaves exactly `[a]`, then `find?` returns `a`. -/
theorem filter_singleton_find? {α : Type} (p : α → Bool) (l : List α) (a : α)
    (hl : l.filter p = [a]) : l.find? p = some a := by
  induction l with
  | nil => simp at hl
  | cons b tl ih =>
    cases hb : p b with
    | true =>
      rw [List.filter_cons_of_pos hb] at hl
      rw [List.find?_cons_of_pos tl hb]
      exact congrArg some (List.cons_eq_cons.mp hl).1
    | false =>
      rw [List.filter_cons_of_neg (by simp [hb])] at hl
      rw [List.find?_cons_of_neg tl (by simp [hb])]
      exact ih hl

/-- If filtering leaves `[]`, then `find?` returns `none`. -/
theorem filter_nil_find? {α : Type} (p : α → Bool) (l : List α)
    (hl : l.filter p = []) : l.find? p = none := by
  rw [List.find?_eq_none]
  intro x hx
  intro hpx
  have : x ∈ l.filter p := List.mem_filter.mpr ⟨hx, hpx⟩
  rw [hl] at this
  simp at this

/-- Erasing the unique `p`-element empties the `p`-filter. -/
theorem filter_eraseP_self {α : Type} (p : α → Bool) (l : List α) (a : α)
    (hl : l.filter p = [a]) : (l.eraseP p).filter p = [] := by
  induction l with
  | nil => simp at hl
  | cons b tl ih =>
    cases hb : p b with
    | true =>
      rw [List.eraseP_cons_of_pos hb]
      rw [List.filter_cons_of_pos hb] at hl
      exact (List.cons_eq_cons.mp hl).2
    | false =>
      rw [List.eraseP_cons_of_neg (by simp [hb])]
      rw [List.filter_cons_of_neg (by simp [hb])] at hl
      rw [List.filter_cons_of_neg (by simp [hb])]
      exact ih hl

/-- Erasing by a predicate disjoint from `q` leaves the `q`-filter
unchanged. -/
theorem filter_eraseP_other {α : Type} (p q : α → Bool)
    (hpq : ∀ x, p x = true → q x = false) (l : List α) :
    (l.eraseP p).filter q = l.filter q := by
  induction l with
  | nil => simp
  | cons b tl ih =>
    cases hb : p b with
    | true =>
      rw [List.eraseP_cons_of_pos hb]
      rw [List.filter_cons_of_neg (by simp [hpq b hb])]
    | false =>
      rw [List.eraseP_cons_of_neg (by simp [hb])]
      cases hq : q b with
      | true =>
        rw [List.filter_cons_of_pos hq, List.filter_cons_of_pos hq, ih]
      | false =>
        rw [List.filter_cons_of_neg (by simp [hq]),
          List.filter_cons_of_neg (by simp [hq]), ih]

/-- The timeout-scan call log restricted to one rid comes exactly from
the records carrying that rid. -/
theorem filterMap_calls_filter (rid : String) (src : List ReqRecord) :
    ((src.filterMap
        (fun r => if r.hasHandler then some (r.rid, false) else none)).filter
      (fun c => c.1 = rid)) =
    ((src.filter (fun r => r.rid = rid)).filterMap
      (fun r => if r.hasHandler then some (r.rid, false) else none)) := by
  induction src with
  | nil => simp
  | cons r tl ih =>
    cases hh : r.hasHandler <;> cases hr : decide (r.rid = rid) <;>
      simp_all [List.filterMap_cons, List.filter_cons]

/-- Two filters commute. -/
theorem filter_swap {α : Type} (p q : α → Bool) (l : List α) :
    (l.filter p).filter q = (l.filter q).filter p := by
  simp only [List.filter_filter]
  exact List.filter_congr (fun a _ => Bool.and_comm _ _)

/-- One registry step keeps the weak invariant: the tracked request is
either still pending untouched, or gone with at most one delivery. -/
theorem reqStep_preserves (rid : String) (t : Nat) (d : Int) (h : Bool)
    (st : ReqState) (e : AgentEv)
    (hP : (st.requests.filter (fun r => r.rid = rid) = [⟨rid, t, d, h⟩] ∧
             callCount st rid = 0) ∨
          (st.requests.filter (fun r => r.rid = rid) = [] ∧
             callCount st rid ≤ 1)) :
    ((reqStep st e).requests.filter (fun r => r.rid = rid) = [⟨rid, t, d, h⟩] ∧
       callCount (reqStep st e) rid = 0) ∨
    ((reqStep st e).requests.filter (fun r => r.rid = rid) = [] ∧
       callCount (reqStep st e) rid ≤ 1) := by
  cases e with
  | reset =>
    right
    refine ⟨by simp [reqStep, ResetRequests], ?_⟩
    have heq : callCount (reqStep st AgentEv.reset) rid = callCount st rid := rfl
    rw [heq]
    rcases hP with ⟨_, hc⟩ | ⟨_, hc⟩ <;> omega
  | response rid' =>
    show _ ∨ _
    simp only [reqStep]
    by_cases hrr : rid' = rid
    · subst hrr
      rcases hP with ⟨hf, hc⟩ | ⟨hf, hc⟩
      · right
        unfold HandleResponse
        rw [filter_singleton_find? _ _ _ hf]
        refine ⟨filter_eraseP_self _ _ _ hf, ?_⟩
        simp only [callCount, List.filter_append, List.length_append]
        have hc0 : (st.calls.filter (fun c => c.1 = rid')).length = 0 := hc
        cases h <;> simp [hc0]
      · right
        unfold HandleResponse
        rw [filter_nil_find? _ _ hf]
        exact ⟨hf, hc⟩
    · unfold HandleResponse
      cases hfind : st.requests.find? (fun r => r.rid = rid') with
      | none => simpa [hfind] using hP
      | some r' =>
        simp only [hfind]
        have hreq : (st.requests.eraseP (fun r => r.rid = rid')).filter
            (fun r => r.rid = rid) = st.requests.filter (fun r => r.rid = rid) := by
          refine filter_eraseP_other _ _ (fun x hx => ?_) _
          have hx' : x.rid = rid' := of_decide_eq_true hx
          simpa [hx'] using hrr
        have hcalls : ((st.calls ++ if r'.hasHandler then [(rid', true)] else
            []).filter (fun c => c.1 = rid)).length = callCount st rid := by
          cases hr'h : r'.hasHandler <;>
            simp [callCount, List.filter_append, List.filter_cons, hrr]
        rcases hP with ⟨hf, hc⟩ | ⟨hf, hc⟩
        · left
          refine ⟨by rw [hreq]; exact hf, ?_⟩
          show ((st.calls ++ _).filter _).length = 0
          rw [hcalls]
          exact hc
        · right
          refine ⟨by rw [hreq]; exact hf, ?_⟩
          show ((st.calls ++ _).filter _).length ≤ 1
          rw [hcalls]
          exact hc
  | scan now =>
    show _ ∨ _
    simp only [reqStep]
    unfold ScanForTimeoutRequests
    have hswap : (st.requests.filter (fun r => ¬ timedOut now r)).filter
        (fun r => r.rid = rid) =
        (st.requests.filter (fun r => r.rid = rid)).filter
          (fun r => ¬ timedOut now r) := filter_swap _ _ _
    have hswap2 : (st.requests.filter (timedOut now)).filter
        (fun r => r.rid = rid) =
        (st.requests.filter (fun r => r.rid = rid)).filter (timedOut now) :=
      filter_swap _ _ _
    have hcalls : ∀ X : List (String × Bool),
        (((st.calls ++ X)).filter (fun c => c.1 = rid)).length =
          callCount st rid + ((X.filter (fun c => c.1 = rid))).length := by
      intro X
      simp [callCount, List.filter_append]
    have hX : (((st.requests.filter (timedOut now)).filterMap
        (fun r => if r.hasHandler then some (r.rid, false) else none)).filter
          (fun c => c.1 = rid)) =
        (((st.requests.filter (fun r => r.rid = rid)).filter
            (timedOut now)).filterMap
          (fun r => if r.hasHandler then some (r.rid, false) else none)) := by
      rw [filterMap_calls_filter, hswap2]
    rcases hP with ⟨hf, hc⟩ | ⟨hf, hc⟩
    · cases htime : timedOut now (⟨rid, t, d, h⟩ : ReqRecord) with
      | true =>
        right
        constructor
        · show ((st.requests.filter _).filter _) = []
          rw [hswap, hf]
          simp [List.filter_cons, htime]
        · show ((st.calls ++ _).filter _).length ≤ 1
          rw [hcalls, hX, hf]
          cases h <;> simp [List.filter_cons, htime, hc, List.filterMap_cons]
      | false =>
        left
        constructor
        · show ((st.requests.filter _).filter _) = [⟨rid, t, d, h⟩]
          rw [hswap, hf]
          simp [List.filter_cons, htime]
        · show ((st.calls ++ _).filter _).length = 0
          rw [hcalls, hX, hf]
          simp [List.filter_cons, htime, hc]
    · right
      constructor
      · show ((st.requests.filter _).filter _) = []
        rw [hswap, hf]
        simp
      · show ((st.calls ++ _).filter _).length ≤ 1
        rw [hcalls, hX, hf]
        simpa using hc

/-- Once the tracked request is gone and its handler has been invoked
exactly once, every further step (responses, scans, resets) keeps it
that way. -/
theorem reqStep_absorb (rid : String) (st : ReqState) (e : AgentEv)
    (hA : st.requests.filter (fun r => r.rid = rid) = [] ∧
      callCount st rid = 1) :
    (reqStep st e).requests.filter (fun r => r.rid = rid) = [] ∧
      callCount (reqStep st e) rid = 1 := by
  obtain ⟨hf, hc⟩ := hA
  cases e with
  | reset => exact ⟨by simp [reqStep, ResetRequests], hc⟩
  | response rid' =>
    simp only [reqStep]
    unfold HandleResponse
    by_cases hrr : rid' = rid
    · subst hrr
      rw [filter_nil_find? _ _ hf]
      exact ⟨hf, hc⟩
    · cases hfind : st.requests.find? (fun r => r.rid = rid') with
      | none =>
        simp only [hfind]
        exact ⟨hf, hc⟩
      | some r' =>
        simp only [hfind]
        have hreq : (st.requests.eraseP (fun r => r.rid = rid')).filter
            (fun r => r.rid = rid) = st.requests.filter (fun r => r.rid = rid) := by
          refine filter_eraseP_other _ _ (fun x hx => ?_) _
          have hx' : x.rid = rid' := of_decide_eq_true hx
          simpa [hx'] using hrr
        refine ⟨by rw [hreq]; exact hf, ?_⟩
        show ((st.calls ++ _).filter _).length = 1
        cases hr'h : r'.hasHandler <;>
          simpa [callCount, List.filter_append, List.filter_cons, hrr] using hc
  | scan now =>
    simp only [reqStep]
    unfold ScanForTimeoutRequests
    have hcalls : ∀ X : List (String × Bool),
        (((st.calls ++ X)).filter (fun c => c.1 = rid)).length =
          callCount st rid + ((X.filter (fun c => c.1 = rid))).length := by
      intro X
      simp [callCount, List.filter_append]
    have hX : (((st.requests.filter (timedOut now)).filterMap
        (fun r => if r.hasHandler then some (r.rid, false) else none)).filter
          (fun c => c.1 = rid)) =
        (((st.requests.filter (fun r => r.rid = rid)).filter
            (timedOut now)).filterMap
          (fun r => if r.hasHandler then some (r.rid, false) else none)) := by
      rw [filterMap_calls_filter, filter_swap]
    constructor
    · show ((st.requests.filter _).filter _) = []
      rw [filter_swap, hf]
      simp
    · show ((st.calls ++ _).filter _).length = 1
      rw [hcalls, hX, hf]
      simp [hc]

/-- While the agent stays connected (no reset), a pending handled
request either stays pending undelivered or has been delivered exactly
once. -/
theorem reqStep_Q (rid : String) (t : Nat) (d : Int)
    (st : ReqState) (e : AgentEv) (hne : e ≠ AgentEv.reset)
    (hQ : (st.requests.filter (fun r => r.rid = rid) = [⟨rid, t, d, true⟩] ∧
             callCount st rid = 0) ∨
          (st.requests.filter (fun r => r.rid = rid) = [] ∧
             callCount st rid = 1)) :
    ((reqStep st e).requests.filter (fun r => r.rid = rid) = [⟨rid, t, d, true⟩] ∧
       callCount (reqStep st e) rid = 0) ∨
    ((reqStep st e).requests.filter (fun r => r.rid = rid) = [] ∧
       callCount (reqStep st e) rid = 1) := by
  rcases hQ with hQ | hA
  · obtain ⟨hf, hc⟩ := hQ
    cases e with
    | reset => exact absurd rfl hne
    | response rid' =>
      simp only [reqStep]
      unfold HandleResponse
      by_cases hrr : rid' = rid
      · subst hrr
        right
        rw [filter_singleton_find? _ _ _ hf]
        refine ⟨filter_eraseP_self _ _ _ hf, ?_⟩
        have hc0 : (st.calls.filter (fun c => c.1 = rid')).length = 0 := hc
        simp [callCount, List.filter_append, hc0]
      · cases hfind : st.requests.find? (fun r => r.rid = rid') with
        | none =>
          left
          simp only [hfind]
          exact ⟨hf, hc⟩
        | some r' =>
          left
          simp only [hfind]
          have hreq : (st.requests.eraseP (fun r => r.rid = rid')).filter
              (fun r => r.rid = rid) =
              st.requests.filter (fun r => r.rid = rid) := by
            refine filter_eraseP_other _ _ (fun x hx => ?_) _
            have hx' : x.rid = rid' := of_decide_eq_true hx
            simpa [hx'] using hrr
          refine ⟨by rw [hreq]; exact hf, ?_⟩
          show ((st.calls ++ _).filter _).length = 0
          cases hr'h : r'.hasHandler <;>
            simpa [callCount, List.filter_append, List.filter_cons, hrr] using hc
    | scan now =>
      simp only [reqStep]
      unfold ScanForTimeoutRequests
      have hcalls : ∀ X : List (String × Bool),
          (((st.calls ++ X)).filter (fun c => c.1 = rid)).length =
            callCount st rid + ((X.filter (fun c => c.1 = rid))).length := by
        intro X
        simp [callCount, List.filter_append]
      have hX : (((st.requests.filter (timedOut now)).filterMap
          (fun r => if r.hasHandler then some (r.rid, false) else none)).filter
            (fun c => c.1 = rid)) =
          (((st.requests.filter (fun r => r.rid = rid)).filter
              (timedOut now)).filterMap
            (fun r => if r.hasHandler then some (r.rid, false) else none)) := by
        rw [filterMap_calls_filter, filter_swap]
      cases htime : timedOut now (⟨rid, t, d, true⟩ : ReqRecord) with
      | true =>
        right
        constructor
        · show ((st.requests.filter _).filter _) = []
          rw [filter_swap, hf]
          simp [List.filter_cons, htime]
        · show ((st.calls ++ _).filter _).length = 1
          rw [hcalls, hX, hf, hc]
          simp [List.filter_cons, htime, List.filterMap_cons]
      | false =>
        left
        constructor
        · show ((st.requests.filter _).filter _) = [⟨rid, t, d, true⟩]
          rw [filter_swap, hf]
          simp [List.filter_cons, htime]
        · show ((st.calls ++ _).filter _).length = 0
          rw [hcalls, hX, hf, hc]
          simp [List.filter_cons, htime]
  · exact Or.inr (reqStep_absorb rid st e hA)

/-- A firing event — a matching response, or a timeout scan past the
deadline — moves a pending handled request to the delivered-once state. -/
theorem reqStep_fire (rid : String) (t : Nat) (d : Int)
    (st : ReqState) (e : AgentEv)
    (hQ : (st.requests.filter (fun r => r.rid = rid) = [⟨rid, t, d, true⟩] ∧
             callCount st rid = 0) ∨
          (st.requests.filter (fun r => r.rid = rid) = [] ∧
             callCount st rid = 1))
    (hfire : e = AgentEv.response rid ∨
      ∃ now, e = AgentEv.scan now ∧ d < (now : Int) - (t : Int)) :
    (reqStep st e).requests.filter (fun r => r.rid = rid) = [] ∧
      callCount (reqStep st e) rid = 1 := by
  rcases hQ with ⟨hf, hc⟩ | hA
  · rcases hfire with hfire | ⟨now, hfire, hlt⟩
    · subst hfire
      simp only [reqStep]
      unfold HandleResponse
      rw [filter_singleton_find? _ _ _ hf]
      refine ⟨filter_eraseP_self _ _ _ hf, ?_⟩
      have hc0 : (st.calls.filter (fun c => c.1 = rid)).length = 0 := hc
      simp [callCount, List.filter_append, hc0]
    · subst hfire
      simp only [reqStep]
      unfold ScanForTimeoutRequests
      have htime : timedOut now (⟨rid, t, d, true⟩ : ReqRecord) = true := by
        simp [timedOut]
        omega
      have hcalls : ∀ X : List (String × Bool),
          (((st.calls ++ X)).filter (fun c => c.1 = rid)).length =
            callCount st rid + ((X.filter (fun c => c.1 = rid))).length := by
        intro X
        simp [callCount, List.filter_append]
      have hX : (((st.requests.filter (timedOut now)).filterMap
          (fun r => if r.hasHandler then some (r.rid, false) else none)).filter
            (fun c => c.1 = rid)) =
          (((st.requests.filter (fun r => r.rid = rid)).filter
              (timedOut now)).filterMap
            (fun r => if r.hasHandler then some (r.rid, false) else none)) := by
        rw [filterMap_calls_filter, filter_swap]
      constructor
      · show ((st.requests.filter _).filter _) = []
        rw [filter_swap, hf]
        simp [List.filter_cons, htime]
      · show ((st.calls ++ _).filter _).length = 1
        rw [hcalls, hX, hf, hc]
        simp [List.filter_cons, htime, List.filterMap_cons]
  · rcases hfire with hfire | ⟨now, hfire, _⟩ <;> subst hfire <;>
      exact reqStep_absorb rid st _ hA

/-- C1 counterexample: the agent disconnects (`Reset`, as `Listen`'s
`finally` runs it) with the request still pending: the handler is
invoked zero times, not once — and not even a later scan or a matching
response can deliver it, the registry entry is gone. -/
theorem request_reset_counterexample :
    callCount (reqRun (SendRequest emptyReqState "r" 0 "ping" () true 60).2
      [AgentEv.reset, AgentEv.scan 1000, AgentEv.response "r"]) "r" = 0 := by
  decide

/-- C1 amended: for a request with non-negative timeout, the stored
handler is invoked **at most** once over any sequence of responses,
timeout scans and resets; and **exactly** once — by the matching
response or by a timeout scan past the deadline — provided the agent
stays connected (no reset).  On disconnect, `Reset` discards pending
entries without invoking their handlers. -/
theorem request_exactly_once (rid : String) (t : Nat) (name : String)
    (d : Int) (h : Bool) (evs : List AgentEv) (hd : 0 ≤ d) :
    callCount (reqRun (SendRequest emptyReqState rid t name () h d).2 evs) rid ≤ 1 ∧
    (h = true → AgentEv.reset ∉ evs →
      ((∃ now, AgentEv.scan now ∈ evs ∧ d < (now : Int) - (t : Int)) ∨
        AgentEv.response rid ∈ evs) →
      callCount (reqRun (SendRequest emptyReqState rid t name () h d).2 evs) rid = 1) := by
  have hst0 : (SendRequest emptyReqState rid t name () h d).2 =
      ⟨[⟨rid, t, d, h⟩], []⟩ := by
    simp [SendRequest, emptyReqState, hd]
  have hf0 : (⟨[⟨rid, t, d, h⟩], []⟩ : ReqState).requests.filter
      (fun r => r.rid = rid) = [⟨rid, t, d, h⟩] := by
    simp [List.filter_cons]
  have hc0 : callCount (⟨[⟨rid, t, d, h⟩], []⟩ : ReqState) rid = 0 := by
    simp [callCount]
  constructor
  · have run_P : ∀ (l : List AgentEv) (st : ReqState),
        ((st.requests.filter (fun r => r.rid = rid) = [⟨rid, t, d, h⟩] ∧
            callCount st rid = 0) ∨
         (st.requests.filter (fun r => r.rid = rid) = [] ∧
            callCount st rid ≤ 1)) →
        (((l.foldl reqStep st).requests.filter (fun r => r.rid = rid) =
            [⟨rid, t, d, h⟩] ∧ callCount (l.foldl reqStep st) rid = 0) ∨
         ((l.foldl reqStep st).requests.filter (fun r => r.rid = rid) = [] ∧
            callCount (l.foldl reqStep st) rid ≤ 1)) := by
      intro l
      induction l with
      | nil => intro st hP; exact hP
      | cons e tl ih =>
        intro st hP
        exact ih (reqStep st e) (reqStep_preserves rid t d h st e hP)
    have hfinal := run_P evs ⟨[⟨rid, t, d, h⟩], []⟩ (Or.inl ⟨hf0, hc0⟩)
    rw [reqRun, hst0]
    rcases hfinal with ⟨_, hc⟩ | ⟨_, hc⟩ <;> omega
  · intro hh hnr hfire
    subst hh
    have run_Q : ∀ (l : List AgentEv) (st : ReqState),
        (∀ e ∈ l, e ≠ AgentEv.reset) →
        ((st.requests.filter (fun r => r.rid = rid) = [⟨rid, t, d, true⟩] ∧
            callCount st rid = 0) ∨
         (st.requests.filter (fun r => r.rid = rid) = [] ∧
            callCount st rid = 1)) →
        (((l.foldl reqStep st).requests.filter (fun r => r.rid = rid) =
            [⟨rid, t, d, true⟩] ∧ callCount (l.foldl reqStep st) rid = 0) ∨
         ((l.foldl reqStep st).requests.filter (fun r => r.rid = rid) = [] ∧
            callCount (l.foldl reqStep st) rid = 1)) := by
      intro l
      induction l with
      | nil => intro st _ hQ; exact hQ
      | cons e tl ih =>
        intro st hne hQ
        exact ih (reqStep st e) (fun e' he' => hne e' (List.mem_cons_of_mem _ he'))
          (reqStep_Q rid t d st e (hne e (List.mem_cons_self _ _)) hQ)
    have run_A : ∀ (l : List AgentEv) (st : ReqState),
        (st.requests.filter (fun r => r.rid = rid) = [] ∧
          callCount st rid = 1) →
        ((l.foldl reqStep st).requests.filter (fun r => r.rid = rid) = [] ∧
          callCount (l.foldl reqStep st) rid = 1) := by
      intro l
      induction l with
      | nil => intro st hA; exact hA
      | cons e tl ih =>
        intro st hA
        exact ih (reqStep st e) (reqStep_absorb rid st e hA)
    -- pick the firing event and split the trace around it
    have hpick : ∃ e ∈ evs, (e = AgentEv.response rid ∨
        ∃ now, e = AgentEv.scan now ∧ d < (now : Int) - (t : Int)) := by
      rcases hfire with ⟨now, hmem, hlt⟩ | hmem
      · exact ⟨AgentEv.scan now, hmem, Or.inr ⟨now, rfl, hlt⟩⟩
      · exact ⟨AgentEv.response rid, hmem, Or.inl rfl⟩
    obtain ⟨e, hmem, hfiree⟩ := hpick
    obtain ⟨s, t2, hsplit⟩ := List.append_of_mem hmem
    rw [reqRun, hst0, hsplit, List.foldl_append, List.foldl_cons]
    have hnr_s : ∀ e' ∈ s, e' ≠ AgentEv.reset := by
      intro e' he' heq
      subst heq
      exact hnr (hsplit ▸ List.mem_append_left _ he')
    have hQ1 := run_Q s ⟨[⟨rid, t, d, true⟩], []⟩ hnr_s (Or.inl ⟨hf0, hc0⟩)
    have hA := reqStep_fire rid t d (s.foldl reqStep ⟨[⟨rid, t, d, true⟩], []⟩)
      e hQ1 hfiree
    exact (run_A t2 _ hA).2

/-- C1 witness: a request with timeout 60 sent at time 0 and scanned at
time 100 (past the deadline) has its handler invoked exactly once. -/
theorem request_exactly_once_witness :
    callCount (reqRun (SendRequest emptyReqState "r" 0 "ping" () true 60).2
      [AgentEv.scan 100]) "r" = 1 :=
  (request_exactly_once "r" 0 "ping" 60 true [AgentEv.scan 100]
    (by decide)).2 rfl (by decide)
    (Or.inl ⟨100, by decide, by decide⟩)

/-! ## C4 and C5: the TERMINAL escape scanner -/

/-- A parameter character is not the escape character. -/
theorem isParamChar_ne_esc (c : Char) (h : isParamChar c = true) :
    c ≠ '\x1b' := by
  intro heq
  subst heq
  simp [isParamChar] at h

/-- A successful Python `int()` implies a non-empty all-digit string. -/
theorem charsToNat?_digits (l : List Char) (n : Nat)
    (h : charsToNat? l = some n) : l ≠ [] ∧ ∀ c ∈ l, c.isDigit = true := by
  unfold charsToNat? at h
  split at h
  · rename_i hcond
    obtain ⟨hne, hall⟩ := hcond
    exact ⟨hne, fun c hc => List.all_eq_true.mp hall c hc⟩
  · simp at h

/-- Equation: `matchEscAt` on a two-or-more element list. -/
theorem matchEscAt_cons_cons (a b : Char) (rest : List Char) :
    matchEscAt (a :: b :: rest) =
      if a = '\x1b' ∧ b = '[' then
        match rest.dropWhile isParamChar with
        | c :: _ =>
          if c.isAlpha then some (rest.takeWhile isParamChar, c) else none
        | [] => none
      else none := rfl

/-- Equation: `escSearch` on a non-empty list. -/
theorem escSearch_cons (c : Char) (tl : List Char) :
    escSearch (c :: tl) =
      match matchEscAt (c :: tl) with
      | some (args, cmd) => some (0, args, cmd)
      | none => (escSearch tl).map (fun r => (r.1 + 1, r.2)) := rfl

/-- Equation: `findEscBracket` on a two-or-more element list. -/
theorem findEscBracket_cons_cons (a b : Char) (tl : List Char) :
    findEscBracket (a :: b :: tl) =
      if a = '\x1b' ∧ b = '[' then some 0
      else (findEscBracket (b :: tl)).map (· + 1) := rfl

/-- Equation: `splitOnSemi` on a non-empty list. -/
theorem splitOnSemi_cons (c : Char) (tl : List Char) :
    splitOnSemi (c :: tl) =
      if c = ';' then [] :: splitOnSemi tl
      else
        match splitOnSemi tl with
        | h :: t => (c :: h) :: t
        | [] => [[c]] := rfl

/-- `matchEscAt` fails on any list not starting with the escape
character. -/
theorem matchEscAt_ne_esc (c : Char) (tl : List Char) (hc : c ≠ '\x1b') :
    matchEscAt (c :: tl) = none := by
  cases tl with
  | nil => rfl
  | cons b tl' =>
    rw [matchEscAt_cons_cons]
    rw [if_neg (fun hcond => hc hcond.1)]

/-- `matchEscAt` fails when every character after `ESC [` is a parameter
character (the final letter never arrives). -/
theorem matchEscAt_dangling (ps : List Char)
    (hps : ∀ p ∈ ps, isParamChar p = true) :
    matchEscAt ('\x1b' :: '[' :: ps) = none := by
  rw [matchEscAt_cons_cons, if_pos ⟨rfl, rfl⟩]
  have hdrop : ps.dropWhile isParamChar = [] := by
    induction ps with
    | nil => rfl
    | cons p tl ih =>
      rw [List.dropWhile_cons, if_pos (hps p (List.mem_cons_self _ _))]
      exact ih (fun q hq => hps q (List.mem_cons_of_mem _ hq))
  rw [hdrop]

/-- `matchEscAt` on `ESC [` followed by a parameter run, a non-parameter
letter, and anything: groups are the run and the letter. -/
theorem matchEscAt_complete (A : List Char) (c : Char) (s : List Char)
    (hA : ∀ a ∈ A, isParamChar a = true) (hc : isParamChar c = false)
    (halpha : c.isAlpha = true) :
    matchEscAt ('\x1b' :: '[' :: (A ++ c :: s)) = some (A, c) := by
  rw [matchEscAt_cons_cons, if_pos ⟨rfl, rfl⟩]
  have htake : (A ++ c :: s).takeWhile isParamChar = A := by
    rw [List.takeWhile_append_of_pos (by simpa using hA), List.takeWhile_cons, hc]
    simp
  have hdrop : (A ++ c :: s).dropWhile isParamChar = c :: s := by
    rw [List.dropWhile_append_of_pos (by simpa using hA), List.dropWhile_cons, hc]
    simp
  rw [htake, hdrop]
  simp [halpha]

/-- `escSearch` finds nothing in an escape-free buffer. -/
theorem escSearch_no_esc (l : List Char) (h : '\x1b' ∉ l) :
    escSearch l = none := by
  induction l with
  | nil => rfl
  | cons c tl ih =>
    rw [escSearch_cons]
    rw [matchEscAt_ne_esc c tl (fun heq => h (heq ▸ List.mem_cons_self _ _))]
    rw [ih (fun hm => h (List.mem_cons_of_mem _ hm))]
    rfl

/-- `escSearch` finds nothing when the buffer is `ESC [` followed only
by parameter characters (a dangling partial escape). -/
theorem escSearch_dangling (ps : List Char)
    (hps : ∀ p ∈ ps, isParamChar p = true) :
    escSearch ('\x1b' :: '[' :: ps) = none := by
  rw [escSearch_cons, matchEscAt_dangling ps hps]
  have h2 : escSearch ('[' :: ps) = none := by
    rw [escSearch_cons, matchEscAt_ne_esc '[' ps (by decide)]
    rw [escSearch_no_esc ps (fun hm => isParamChar_ne_esc _ (hps _ hm) rfl)]
    rfl
  rw [h2]
  rfl

/-- `escSearch` reports a match at position 0 when `matchEscAt`
succeeds at the head. -/
theorem escSearch_head (a : Char) (tl : List Char) (A : List Char) (c : Char)
    (h : matchEscAt (a :: tl) = some (A, c)) :
    escSearch (a :: tl) = some (0, A, c) := by
  rw [escSearch_cons, h]

/-- `findEscBracket` finds nothing in an escape-free buffer. -/
theorem findEscBracket_no_esc (l : List Char) (h : '\x1b' ∉ l) :
    findEscBracket l = none := by
  induction l using findEscBracket.induct with
  | case1 => rfl
  | case2 a => rfl
  | case3 a b tl hcond =>
    exact absurd (hcond.1 ▸ List.mem_cons_self _ _) h
  | case4 a b tl hcond ih =>
    rw [findEscBracket_cons_cons, if_neg hcond,
      ih (fun hm => h (List.mem_cons_of_mem _ hm))]
    rfl

/-- `findEscBracket` locates `ESC [` right after an escape-free
prefix. -/
theorem findEscBracket_append (pre : List Char) (h : '\x1b' ∉ pre)
    (tl : List Char) :
    findEscBracket (pre ++ '\x1b' :: '[' :: tl) = some pre.length := by
  induction pre with
  | nil =>
    rw [List.nil_append, findEscBracket_cons_cons, if_pos ⟨rfl, rfl⟩]
    rfl
  | cons a pre' ih =>
    have ha : a ≠ '\x1b' := fun heq => h (heq ▸ List.mem_cons_self _ _)
    have h' : '\x1b' ∉ pre' := fun hm => h (List.mem_cons_of_mem _ hm)
    have hshape : ∃ b tl2, pre' ++ '\x1b' :: '[' :: tl = b :: tl2 := by
      cases pre' with
      | nil => exact ⟨'\x1b', '[' :: tl, rfl⟩
      | cons a2 pre'' => exact ⟨a2, pre'' ++ '\x1b' :: '[' :: tl, rfl⟩
    obtain ⟨b, tl2, hshape⟩ := hshape
    rw [List.cons_append, hshape, findEscBracket_cons_cons]
    have hcond : ¬ (a = '\x1b' ∧ b = '[') := fun hcond => ha hcond.1
    rw [if_neg hcond, ← hshape, ih h']
    simp

/-- Unfolding `ProcessBuffer` when no `ESC [` occurs. -/
theorem ProcessBuffer_of_none (buf : List Char)
    (h : findEscBracket buf = none) : ProcessBuffer buf = ⟨buf, []⟩ := by
  rw [ProcessBuffer]
  split
  · rfl
  · rename_i pos heq
    rw [h] at heq
    exact absurd heq (by simp)

/-- Unfolding `ProcessBuffer` at a located `ESC [`. -/
theorem ProcessBuffer_of_some (buf : List Char) (pos : Nat)
    (h : findEscBracket buf = some pos) :
    ProcessBuffer buf =
      TTYOut.append ⟨buf.take pos, []⟩
        (TTYOut.append (HandleTTYControl (buf.drop pos)).2
          (ProcessBuffer (buf.drop (pos + (HandleTTYControl (buf.drop pos)).1)))) := by
  rw [ProcessBuffer]
  split
  · rename_i heq
    rw [h] at heq
    exact absurd heq (by simp)
  · rename_i pos' heq
    rw [h] at heq
    cases heq
    rfl

/-- `splitOnSemi` of a semicolon-free run is that run alone. -/
theorem splitOnSemi_no_semi (l : List Char) (h : ';' ∉ l) :
    splitOnSemi l = [l] := by
  induction l with
  | nil => rfl
  | cons c tl ih =>
    rw [splitOnSemi_cons, if_neg (fun heq => h (show (';' : Char) ∈ c :: tl by
      rw [← heq]; exact List.mem_cons_self _ _))]
    rw [ih (fun hm => h (List.mem_cons_of_mem _ hm))]

/-- `splitOnSemi` splits off a semicolon-free head piece. -/
theorem splitOnSemi_append (A : List Char) (h : ';' ∉ A) (rest : List Char) :
    splitOnSemi (A ++ ';' :: rest) = A :: splitOnSemi rest := by
  induction A with
  | nil =>
    rw [List.nil_append, splitOnSemi_cons, if_pos rfl]
  | cons a A' ih =>
    have ha : a ≠ ';' := fun heq => h (heq ▸ List.mem_cons_self _ _)
    have h' : ';' ∉ A' := fun hm => h (List.mem_cons_of_mem _ hm)
    rw [List.cons_append, splitOnSemi_cons, if_neg ha, ih h']

/-- `HandleTTYControl` on a complete resize escape: one ioctl with the
parsed rows and cols, nothing written, the whole `group(0)` consumed. -/
theorem HandleTTYControl_resize (rs cs suf : List Char) (r c : Nat)
    (hr : charsToNat? rs = some r) (hc : charsToNat? cs = some c)
    (hrb : r < 65536) (hcb : c < 65536) :
    HandleTTYControl ('\x1b' :: '[' ::
        (('8' :: ';' :: (rs ++ ';' :: cs)) ++ 't' :: suf)) =
      (('8' :: ';' :: (rs ++ ';' :: cs)).length + 3, ⟨[], [(r, c)]⟩) := by
  obtain ⟨hrne, hrdig⟩ := charsToNat?_digits rs r hr
  obtain ⟨hcne, hcdig⟩ := charsToNat?_digits cs c hc
  have hparam : ∀ a ∈ ('8' :: ';' :: (rs ++ ';' :: cs)), isParamChar a = true := by
    intro a ha
    rcases ha with _ | ⟨_, ha⟩
    · decide
    rcases ha with _ | ⟨_, ha⟩
    · decide
    rcases List.mem_append.mp ha with ha | ha
    · simp [isParamChar, hrdig a ha]
    rcases ha with _ | ⟨_, ha⟩
    · decide
    · simp [isParamChar, hcdig a ha]
  have hrsemi : ';' ∉ rs := by
    intro hm
    have := hrdig ';' hm
    simp at this
  have hcsemi : ';' ∉ cs := by
    intro hm
    have := hcdig ';' hm
    simp at this
  have hmatch := matchEscAt_complete ('8' :: ';' :: (rs ++ ';' :: cs)) 't' suf
    hparam (by decide) (by decide)
  have hsearch := escSearch_head _ _ _ _ hmatch
  have hsplit : splitOnSemi ('8' :: ';' :: (rs ++ ';' :: cs)) =
      [['8'], rs, cs] := by
    rw [show ('8' :: ';' :: (rs ++ ';' :: cs)) =
      ['8'] ++ ';' :: (rs ++ ';' :: cs) from rfl]
    rw [splitOnSemi_append ['8'] (by decide) _]
    rw [splitOnSemi_append rs hrsemi _]
    rw [splitOnSemi_no_semi cs hcsemi]
  have hsearch2 : escSearch ('\x1b' :: '[' :: '8' :: ';' ::
      (rs ++ ';' :: (cs ++ 't' :: suf))) =
      some (0, '8' :: ';' :: (rs ++ ';' :: cs), 't') := by
    simpa using hsearch
  simp [HandleTTYControl, hsearch2, hsplit, hr, hc, hrb, hcb]

/-- `HandleTTYControl` on a dangling partial escape: the two bytes
`ESC [` are written to the pty and consumed. -/
theorem HandleTTYControl_dangling (ps : List Char)
    (hps : ∀ p ∈ ps, isParamChar p = true) :
    HandleTTYControl ('\x1b' :: '[' :: ps) = (2, ⟨['\x1b', '['], []⟩) := by
  unfold HandleTTYControl
  rw [escSearch_dangling ps hps]
  rfl

/-- Taking one element past an appended prefix. -/
theorem take_append_one {α : Type} (l : List α) (x : α) (rest : List α) :
    (l ++ x :: rest).take (l.length + 1) = l ++ [x] := by
  induction l with
  | nil => simp
  | cons a tl ih => simp [ih]

/-- An escape-free buffer is pass-through material. -/
theorem passthru_of_no_esc (l : List Char) (h : '\x1b' ∉ l) : PassThru l := by
  induction l with
  | nil => exact PassThru.nil
  | cons c tl ih =>
    exact PassThru.plain (fun heq => h (heq ▸ List.mem_cons_self _ _))
      (ih (fun hm => h (List.mem_cons_of_mem _ hm)))

/-- A pass-through buffer is either escape-free or an escape-free prefix
followed by one complete non-`t` escape and a pass-through rest. -/
theorem PassThru_decomp (l : List Char) (h : PassThru l) :
    '\x1b' ∉ l ∨
    ∃ q args cmd rest, l = q ++ '\x1b' :: '[' :: (args ++ cmd :: rest) ∧
      '\x1b' ∉ q ∧ (∀ a ∈ args, isParamChar a = true) ∧ cmd.isAlpha = true ∧
      isParamChar cmd = false ∧ cmd ≠ 't' ∧ PassThru rest := by
  induction h with
  | nil => exact Or.inl (by simp)
  | @plain c rest hne _ ih =>
    rcases ih with hfree | ⟨q, args, cmd, rest', heq, hq, hargs, ha, hp, hnt, hpt⟩
    · left
      intro hm
      rcases List.mem_cons.mp hm with hm | hm
      · exact hne hm.symm
      · exact hfree hm
    · right
      exact ⟨c :: q, args, cmd, rest', by rw [heq]; rfl,
        fun hm => by
          rcases List.mem_cons.mp hm with hm | hm
          · exact hne hm.symm
          · exact hq hm,
        hargs, ha, hp, hnt, hpt⟩
  | @csi args cmd rest hargs ha hp hnt hpt _ =>
    exact Or.inr ⟨[], args, cmd, rest, rfl, by simp, hargs, ha, hp, hnt, hpt⟩

/-- `HandleTTYControl` on a complete escape whose command is not `t`:
the matched `group(0)` is written to the pty verbatim, no ioctl. -/
theorem HandleTTYControl_other (args : List Char) (cmd : Char)
    (rest : List Char) (hargs : ∀ a ∈ args, isParamChar a = true)
    (ha : cmd.isAlpha = true) (hp : isParamChar cmd = false) (hnt : cmd ≠ 't') :
    HandleTTYControl ('\x1b' :: '[' :: (args ++ cmd :: rest)) =
      (args.length + 3, ⟨'\x1b' :: '[' :: (args ++ [cmd]), []⟩) := by
  have hmatch := matchEscAt_complete args cmd rest hargs hp ha
  have hsearch := escSearch_head _ _ _ _ hmatch
  unfold HandleTTYControl
  rw [hsearch]
  simp only [List.drop_zero]
  rw [if_neg hnt]
  rw [show (args.length + 3) = (('\x1b' :: '[' :: args).length + 1) from by
    simp only [List.length_cons]]
  rw [show ('\x1b' :: '[' :: (args ++ cmd :: rest)) =
    ('\x1b' :: '[' :: args) ++ cmd :: rest from by simp]
  rw [take_append_one]
  simp

/-- The scanner writes a pass-through buffer — ordinary bytes and
complete other CSI sequences alike — to the pty unchanged, with no
ioctl. -/
theorem processBuffer_passthru (l : List Char) (h : PassThru l) :
    ProcessBuffer l = ⟨l, []⟩ := by
  -- strong induction on the buffer length
  suffices hgen : ∀ (n : Nat) (l : List Char), l.length ≤ n → PassThru l →
      ProcessBuffer l = ⟨l, []⟩ from hgen l.length l (Nat.le_refl _) h
  intro n
  induction n with
  | zero =>
    intro l hlen hpt
    have : l = [] := List.eq_nil_of_length_eq_zero (Nat.le_zero.mp hlen)
    subst this
    exact ProcessBuffer_of_none [] rfl
  | succ n ih =>
    intro l hlen hpt
    rcases PassThru_decomp l hpt with hfree | ⟨q, args, cmd, rest, heq, hq,
      hargs, ha, hp, hnt, hptrest⟩
    · exact ProcessBuffer_of_none l (findEscBracket_no_esc l hfree)
    · subst heq
      have hfind := findEscBracket_append q hq (args ++ cmd :: rest)
      rw [ProcessBuffer_of_some _ q.length hfind]
      have hdrop : (q ++ '\x1b' :: '[' :: (args ++ cmd :: rest)).drop q.length =
          '\x1b' :: '[' :: (args ++ cmd :: rest) := List.drop_left _ _
      have htake : (q ++ '\x1b' :: '[' :: (args ++ cmd :: rest)).take q.length =
          q := List.take_left _ _
      have hctrl := HandleTTYControl_other args cmd rest hargs ha hp hnt
      rw [hdrop, hctrl, htake]
      have hdrop2 : (q ++ '\x1b' :: '[' :: (args ++ cmd :: rest)).drop
          (q.length + (args.length + 3)) = rest := by
        rw [show q ++ '\x1b' :: '[' :: (args ++ cmd :: rest) =
          (q ++ '\x1b' :: '[' :: (args ++ [cmd])) ++ rest from by simp]
        refine List.drop_left' ?_
        simp only [List.length_append, List.length_cons, List.length_nil]
      rw [hdrop2]
      have hrest : rest.length ≤ n := by
        have := hlen
        simp [List.length_append] at this
        omega
      rw [ih rest hrest hptrest]
      simp [TTYOut.append]

/-- C4 counterexample, two failing inputs of the claim as stated.
First, the buffer `A ESC [ ESC [ 8 ; 1 ; 2 t B` contains the complete
escape `ESC [ 8 ; 1 ; 2 t`, and the ioctl does fire once with (1, 2);
but because `HandleTTYControl`'s return value counts consumed bytes from
the handed buffer's start while the regex matched two bytes later, the
scanner writes the escape's bytes `2 t` to the pty and silently drops
the dangling `ESC [` — instead of writing exactly the bytes outside the
escape (`A B`).  Second, the buffer `ESC [ 8 ; 99999 ; 2 t Z` contains a
complete resize escape with integer rows and cols, yet no ioctl is
invoked at all: `struct.pack('HHHH', …)` raises for rows ≥ 2^16, the
`except` swallows it, and the whole escape is written to the pty. -/
theorem processBuffer_escape_leak_counterexample :
    (("A\x1b[\x1b[8;1;2tB".toList =
      "A\x1b[".toList ++ '\x1b' :: '[' ::
        (('8' :: ';' :: ("1".toList ++ ';' :: "2".toList)) ++ 't' :: "B".toList)) ∧
    ProcessBuffer ("A\x1b[\x1b[8;1;2tB".toList) = ⟨"A2tB".toList, [(1, 2)]⟩ ∧
    ProcessBuffer ("A\x1b[\x1b[8;1;2tB".toList) ≠
      ⟨"A\x1b[".toList ++ "B".toList, [(1, 2)]⟩) ∧
    (("\x1b[8;99999;2tZ".toList =
      [] ++ '\x1b' :: '[' ::
        (('8' :: ';' :: ("99999".toList ++ ';' :: "2".toList)) ++
          't' :: "Z".toList)) ∧
    ProcessBuffer ("\x1b[8;99999;2tZ".toList) =
      ⟨"\x1b[8;99999;2tZ".toList, []⟩) := by
  have hrun : ProcessBuffer ("A\x1b[\x1b[8;1;2tB".toList) =
      ⟨"A2tB".toList, [(1, 2)]⟩ := by
    rw [ProcessBuffer_of_some ("A\x1b[\x1b[8;1;2tB".toList) 1 (by decide)]
    rw [show (("A\x1b[\x1b[8;1;2tB".toList).drop 1) = "\x1b[\x1b[8;1;2tB".toList
      from by decide]
    rw [show HandleTTYControl ("\x1b[\x1b[8;1;2tB".toList) =
      (8, ⟨[], [(1, 2)]⟩) from by decide]
    rw [show (("A\x1b[\x1b[8;1;2tB".toList).drop
      (1 + (((8 : Nat), (⟨[], [(1, 2)]⟩ : TTYOut)).1)) = "2tB".toList)
      from by decide]
    rw [ProcessBuffer_of_none ("2tB".toList) (by decide)]
    decide
  have hover : ProcessBuffer ("\x1b[8;99999;2tZ".toList) =
      ⟨"\x1b[8;99999;2tZ".toList, []⟩ := by
    rw [ProcessBuffer_of_some ("\x1b[8;99999;2tZ".toList) 0 (by decide)]
    rw [show (("\x1b[8;99999;2tZ".toList).drop 0) = "\x1b[8;99999;2tZ".toList
      from by decide]
    rw [show HandleTTYControl ("\x1b[8;99999;2tZ".toList) =
      (12, ⟨"\x1b[8;99999;2t".toList, []⟩) from by decide]
    rw [show (("\x1b[8;99999;2tZ".toList).drop
      (0 + (((12 : Nat), (⟨"\x1b[8;99999;2t".toList, []⟩ : TTYOut)).1)) =
        "Z".toList) from by decide]
    rw [ProcessBuffer_of_none ("Z".toList) (by decide)]
    decide
  refine ⟨⟨by decide, hrun, ?_⟩, ⟨by decide, hover⟩⟩
  rw [hrun]
  intro hcontra
  have := congrArg TTYOut.written hcontra
  revert this
  decide

/-- C4 amended: for a buffer `pre ++ ESC [ 8 ; rows ; cols t ++ suf`
whose surroundings are ordinary bytes and complete *other* CSI sequences
(command letter ≠ `t`), with rows and cols below the unsigned-short
bound of `struct.pack`, processing invokes the window-size ioctl exactly
once with the parsed rows and cols, writes none of the resize escape's
bytes to the pty, and writes all surrounding bytes — other CSI
sequences included — unchanged. -/
theorem processBuffer_resize (pre suf rs cs : List Char) (r c : Nat)
    (hpre : PassThru pre) (hsuf : PassThru suf)
    (hr : charsToNat? rs = some r) (hc : charsToNat? cs = some c)
    (hrb : r < 65536) (hcb : c < 65536) :
    ProcessBuffer (pre ++ '\x1b' :: '[' ::
        (('8' :: ';' :: (rs ++ ';' :: cs)) ++ 't' :: suf)) =
      ⟨pre ++ suf, [(r, c)]⟩ := by
  have hbase : ∀ pre0 : List Char, '\x1b' ∉ pre0 →
      ProcessBuffer (pre0 ++ '\x1b' :: '[' ::
        (('8' :: ';' :: (rs ++ ';' :: cs)) ++ 't' :: suf)) =
      ⟨pre0 ++ suf, [(r, c)]⟩ := by
    intro pre0 hfree
    have hfind := findEscBracket_append pre0 hfree
      (('8' :: ';' :: (rs ++ ';' :: cs)) ++ 't' :: suf)
    rw [ProcessBuffer_of_some _ pre0.length hfind]
    have hdrop : (pre0 ++ '\x1b' :: '[' ::
        (('8' :: ';' :: (rs ++ ';' :: cs)) ++ 't' :: suf)).drop pre0.length =
        '\x1b' :: '[' :: (('8' :: ';' :: (rs ++ ';' :: cs)) ++ 't' :: suf) :=
      List.drop_left _ _
    have htake : (pre0 ++ '\x1b' :: '[' ::
        (('8' :: ';' :: (rs ++ ';' :: cs)) ++ 't' :: suf)).take pre0.length =
        pre0 := List.take_left _ _
    have hctrl := HandleTTYControl_resize rs cs suf r c hr hc hrb hcb
    rw [hdrop, hctrl, htake]
    have hdrop2 : (pre0 ++ '\x1b' :: '[' ::
        (('8' :: ';' :: (rs ++ ';' :: cs)) ++ 't' :: suf)).drop
          (pre0.length + (('8' :: ';' :: (rs ++ ';' :: cs)).length + 3)) =
        suf := by
      rw [show pre0 ++ '\x1b' :: '[' ::
          (('8' :: ';' :: (rs ++ ';' :: cs)) ++ 't' :: suf) =
          (pre0 ++ '\x1b' :: '[' ::
            (('8' :: ';' :: (rs ++ ';' :: cs)) ++ ['t'])) ++ suf from by simp]
      refine List.drop_left' ?_
      simp [List.length_append]
      omega
    rw [hdrop2]
    rw [processBuffer_passthru suf hsuf]
    simp [TTYOut.append]
  suffices hgen : ∀ (n : Nat) (pre1 : List Char), pre1.length ≤ n →
      PassThru pre1 →
      ProcessBuffer (pre1 ++ '\x1b' :: '[' ::
        (('8' :: ';' :: (rs ++ ';' :: cs)) ++ 't' :: suf)) =
      ⟨pre1 ++ suf, [(r, c)]⟩ from hgen pre.length pre (Nat.le_refl _) hpre
  intro n
  induction n with
  | zero =>
    intro pre1 hlen hpt
    have : pre1 = [] := List.eq_nil_of_length_eq_zero (Nat.le_zero.mp hlen)
    subst this
    exact hbase [] (by simp)
  | succ n ih =>
    intro pre1 hlen hpt
    rcases PassThru_decomp pre1 hpt with hfree | ⟨q, args, cmd, rest, heq, hq,
      hargs, ha, hp, hnt, hptrest⟩
    · exact hbase pre1 hfree
    · subst heq
      rw [show (q ++ '\x1b' :: '[' :: (args ++ cmd :: rest)) ++ '\x1b' :: '[' ::
          (('8' :: ';' :: (rs ++ ';' :: cs)) ++ 't' :: suf) =
          q ++ '\x1b' :: '[' :: (args ++ cmd :: (rest ++ '\x1b' :: '[' ::
            (('8' :: ';' :: (rs ++ ';' :: cs)) ++ 't' :: suf))) from by simp]
      have hfind := findEscBracket_append q hq (args ++ cmd :: (rest ++
        '\x1b' :: '[' :: (('8' :: ';' :: (rs ++ ';' :: cs)) ++ 't' :: suf)))
      rw [ProcessBuffer_of_some _ q.length hfind]
      have hdrop : (q ++ '\x1b' :: '[' :: (args ++ cmd :: (rest ++ '\x1b' ::
          '[' :: (('8' :: ';' :: (rs ++ ';' :: cs)) ++ 't' :: suf)))).drop
            q.length =
          '\x1b' :: '[' :: (args ++ cmd :: (rest ++ '\x1b' :: '[' ::
            (('8' :: ';' :: (rs ++ ';' :: cs)) ++ 't' :: suf))) :=
        List.drop_left _ _
      have htake : (q ++ '\x1b' :: '[' :: (args ++ cmd :: (rest ++ '\x1b' ::
          '[' :: (('8' :: ';' :: (rs ++ ';' :: cs)) ++ 't' :: suf)))).take
            q.length = q := List.take_left _ _
      have hctrl := HandleTTYControl_other args cmd (rest ++ '\x1b' :: '[' ::
        (('8' :: ';' :: (rs ++ ';' :: cs)) ++ 't' :: suf)) hargs ha hp hnt
      rw [hdrop, hctrl, htake]
      have hdrop2 : (q ++ '\x1b' :: '[' :: (args ++ cmd :: (rest ++ '\x1b' ::
          '[' :: (('8' :: ';' :: (rs ++ ';' :: cs)) ++ 't' :: suf)))).drop
            (q.length + (args.length + 3)) =
          rest ++ '\x1b' :: '[' ::
            (('8' :: ';' :: (rs ++ ';' :: cs)) ++ 't' :: suf) := by
        rw [show q ++ '\x1b' :: '[' :: (args ++ cmd :: (rest ++ '\x1b' :: '[' ::
            (('8' :: ';' :: (rs ++ ';' :: cs)) ++ 't' :: suf))) =
            (q ++ '\x1b' :: '[' :: (args ++ [cmd])) ++ (rest ++ '\x1b' :: '[' ::
              (('8' :: ';' :: (rs ++ ';' :: cs)) ++ 't' :: suf)) from by simp]
        refine List.drop_left' ?_
        simp only [List.length_append, List.length_cons, List.length_nil]
      rw [hdrop2]
      have hrest : rest.length ≤ n := by
        have := hlen
        simp [List.length_append] at this
        omega
      rw [ih rest hrest hptrest]
      simp [TTYOut.append]

/-- C4 witness: the buffer `A ESC[2J ESC[8;40;120t ESC[K ok` — the
resize escape surrounded by an ordinary byte and two other CSI
sequences — triggers exactly one ioctl with rows 40, cols 120, and the
pty receives `A ESC[2J ESC[K ok`: everything except the resize escape,
unchanged. -/
theorem processBuffer_resize_witness :
    ProcessBuffer ("A\x1b[2J".toList ++ '\x1b' :: '[' ::
        (('8' :: ';' :: ("40".toList ++ ';' :: "120".toList)) ++
          't' :: "\x1b[Kok".toList)) =
      ⟨"A\x1b[2J".toList ++ "\x1b[Kok".toList, [(40, 120)]⟩ :=
  processBuffer_resize _ _ _ _ 40 120
    (show PassThru ("A\x1b[2J".toList) from
      PassThru.plain (by decide)
        (@PassThru.csi ['2'] 'J' [] (by decide) (by decide) (by decide)
          (by decide) PassThru.nil))
    (show PassThru ("\x1b[Kok".toList) from
      @PassThru.csi [] 'K' ("ok".toList) (by decide) (by decide) (by decide)
        (by decide) (passthru_of_no_esc _ (by decide)))
    (by decide) (by decide) (by decide) (by decide)

/-- C5 counterexample: a read consisting of just the partial prefix
`ESC [` is consumed immediately and *written to the pty*; the claim says
it is neither consumed nor written, with recognition deferred to the
next read. -/
theorem processBuffer_dangling_counterexample :
    ProcessBuffer ['\x1b', '['] = ⟨['\x1b', '['], []⟩ ∧
    (ProcessBuffer ['\x1b', '[']).written ≠ [] := by
  have hrun : ProcessBuffer ['\x1b', '['] = ⟨['\x1b', '['], []⟩ := by
    rw [ProcessBuffer_of_some ['\x1b', '['] 0 (by decide)]
    rw [show ((['\x1b', '['] : List Char).drop 0) = ['\x1b', '['] from by decide]
    rw [show HandleTTYControl ['\x1b', '['] = (2, ⟨['\x1b', '['], []⟩)
      from by decide]
    rw [show ((['\x1b', '['] : List Char).drop
      (0 + (((2 : Nat), (⟨['\x1b', '['], []⟩ : TTYOut)).1)) = ([] : List Char))
      from by decide]
    rw [ProcessBuffer_of_none ([] : List Char) (by decide)]
    decide
  refine ⟨hrun, ?_⟩
  rw [hrun]
  decide

/-- C5 amended: a partial escape — `ESC [` followed only by parameter
characters, with the final letter missing — at the tail of a read is
consumed in the same read (two bytes at a time) and written to the pty
verbatim; no bytes are retained for the next read and no ioctl fires. -/
theorem processBuffer_dangling (pre ps : List Char) (hpre : '\x1b' ∉ pre)
    (hps : ∀ p ∈ ps, isParamChar p = true) :
    ProcessBuffer (pre ++ '\x1b' :: '[' :: ps) =
      ⟨pre ++ '\x1b' :: '[' :: ps, []⟩ := by
  have hfind := findEscBracket_append pre hpre ps
  rw [ProcessBuffer_of_some _ pre.length hfind]
  have hdrop : (pre ++ '\x1b' :: '[' :: ps).drop pre.length =
      '\x1b' :: '[' :: ps := List.drop_left _ _
  have htake : (pre ++ '\x1b' :: '[' :: ps).take pre.length = pre :=
    List.take_left _ _
  have hctrl := HandleTTYControl_dangling ps hps
  rw [hdrop, hctrl, htake]
  have hdrop2 : (pre ++ '\x1b' :: '[' :: ps).drop (pre.length + 2) = ps := by
    rw [show pre ++ '\x1b' :: '[' :: ps =
      (pre ++ ['\x1b', '[']) ++ ps from by simp]
    refine List.drop_left' ?_
    simp
  rw [hdrop2]
  rw [ProcessBuffer_of_none ps
    (findEscBracket_no_esc ps (fun hm => isParamChar_ne_esc _ (hps _ hm) rfl))]
  simp [TTYOut.append]

/-- C5 witness: the read `A ESC [ 8 ; 1` is written through whole — the
partial escape is not withheld. -/
theorem processBuffer_dangling_witness :
    ProcessBuffer ("A".toList ++ '\x1b' :: '[' :: "8;1".toList) =
      ⟨"A".toList ++ '\x1b' :: '[' :: "8;1".toList, []⟩ :=
  processBuffer_dangling _ _ (by decide) (by decide)

end Overlord
